import Mathlib

/-!
Verification development for the polymarket-manager repository
(src/new.py and src/run.py).

The Python code is shallowly embedded: Python floats are modelled as exact
rationals (ℚ), dictionaries as structures, the global watchlist as a list
passed explicitly, and the side-effecting monitor loop as a pure function
that returns the trace of order actions it would perform.  External calls
(order book, trades, balances, order placement results) are inputs.
-/

set_option maxRecDepth 100000

namespace PolymarketManager

/-! ## Constants (src/new.py lines 40-47) -/

def MIN_BID : ℚ := 10
def MAX_BID : ℚ := 55
def PORTFOLIO_PERCENT : ℚ := 1
def SPREAD_LIMIT : ℚ := 3
def WATCHLIST_LIMIT : ℕ := 200
def SELL_TRESHOLD : ℚ := 95 / 100

/-! ## Truncation (src/new.py lines 291-292)

`truncate_to_2_decimals(value) = int(value * 100) / 100.0`.
Python `int()` truncates toward zero, which we model on ℚ by `py_int`. -/

def py_int (q : ℚ) : ℤ := if q < 0 then ⌈q⌉ else ⌊q⌋

def truncate_to_2_decimals (value : ℚ) : ℚ := (py_int (value * 100) : ℚ) / 100

/-! ## Order book extraction (src/new.py lines 331-332)

`highest_bid = float(order_book.bids.pop().price) if len(order_book.bids) else 100.0`
`lowest_ask  = float(order_book.asks.pop().price) if len(order_book.asks) else 0.0`
`list.pop()` returns the last element, so each side is "last price or sentinel". -/

def best_bid (bids : List ℚ) : ℚ := bids.getLast?.getD 100

def best_ask (asks : List ℚ) : ℚ := asks.getLast?.getD 0

/-! ## Risk budget (src/new.py lines 354-358)

`portfolio_balance = (position + cash) * PORTFOLIO_PERCENT / 100.0` followed by
`if portfolio_balance > cash_balance: portfolio_balance = cash_balance`. -/

def effective_budget (exposure free : ℚ) : ℚ :=
  if free < (exposure + free) * PORTFOLIO_PERCENT / 100 then free
  else (exposure + free) * PORTFOLIO_PERCENT / 100

/-! ## The per-item monitor (src/new.py lines 294-349)

`monitor_market` is embedded as the trace of order actions it performs.
Inputs replace the external calls: `stillActive` is `check_resolved`'s answer,
`inWatch` is `is_in_watchlist`, `bookOk` is whether `get_order_book` succeeded,
`currentBet` is the first component of `get_bet_on_market` (0 when it is None),
`cancelOk`/`buyFilled` are the results of `cancel_orders_on_market` and
`create_buy_order`. -/

inductive MarketEffect where
  | cancelAll : MarketEffect
  | buy : ℚ → ℚ → MarketEffect
  | promote : MarketEffect
  | sell : ℚ → ℚ → MarketEffect
deriving DecidableEq, Repr

def monitor_market_effects (stillActive inWatch bookOk cancelOk buyFilled : Bool)
    (currentBet portfolioBalance : ℚ) (bids asks : List ℚ) : List MarketEffect :=
  if stillActive = false then []
  else if inWatch = false then []
  else if portfolioBalance ≤ currentBet then [MarketEffect.cancelAll]
  else if bookOk = false then []
  else if MIN_BID / 100 ≤ best_ask asks ∧ best_ask asks ≤ MAX_BID / 100 ∧
          best_ask asks - best_bid bids < SPREAD_LIMIT / 100 then
    if cancelOk then
      MarketEffect.cancelAll ::
      MarketEffect.buy (truncate_to_2_decimals (best_ask asks))
        (truncate_to_2_decimals
          ((portfolioBalance - currentBet) / truncate_to_2_decimals (best_ask asks))) ::
      (if buyFilled then
        [MarketEffect.promote,
         MarketEffect.sell SELL_TRESHOLD
           (truncate_to_2_decimals
             ((portfolioBalance - currentBet) / truncate_to_2_decimals (best_ask asks)))]
       else [])
    else [MarketEffect.cancelAll]
  else []

/-! ## Truncation lemmas -/

lemma py_int_le (q : ℚ) (h : 0 ≤ q) : (py_int q : ℚ) ≤ q := by
  unfold py_int
  rw [if_neg (not_lt.mpr h)]
  exact Int.floor_le q

lemma truncate_le (q : ℚ) (h : 0 ≤ q) : truncate_to_2_decimals q ≤ q := by
  unfold truncate_to_2_decimals
  rw [div_le_iff₀ (by norm_num : (0:ℚ) < 100)]
  exact py_int_le (q * 100) (by positivity)

lemma truncate_div_mul_le (a p : ℚ) (hp : 0 < p) (ha : 0 ≤ a) :
    truncate_to_2_decimals (a / p) * p ≤ a := by
  have h1 : truncate_to_2_decimals (a / p) ≤ a / p :=
    truncate_le _ (div_nonneg ha hp.le)
  calc truncate_to_2_decimals (a / p) * p ≤ a / p * p :=
        mul_le_mul_of_nonneg_right h1 hp.le
    _ = a := div_mul_cancel₀ a hp.ne'

lemma truncate_pos_of_tenth_le (q : ℚ) (h : 1 / 10 ≤ q) :
    0 < truncate_to_2_decimals q := by
  have hq : (0:ℚ) ≤ q := le_trans (by norm_num) h
  unfold truncate_to_2_decimals py_int
  rw [if_neg (not_lt.mpr (by positivity))]
  have h10 : (10 : ℤ) ≤ ⌊q * 100⌋ := by
    rw [Int.le_floor]
    calc ((10:ℤ) : ℚ) = 1 / 10 * 100 := by norm_num
      _ ≤ q * 100 := by
          exact mul_le_mul_of_nonneg_right h (by norm_num)
  have : (10 : ℚ) ≤ (⌊q * 100⌋ : ℚ) := by exact_mod_cast h10
  linarith [this]

/-! ## Claim C10: truncation bias -/

/-- C10: truncation biases toward not exceeding the allocated balance: for every
non-negative value x, `truncate_to_2_decimals x ≤ x` (it never rounds up), and for
every positive price p and available balance a ≥ 0,
`truncate_to_2_decimals (a / p) * p ≤ a`. -/
theorem truncation_bias (x p a : ℚ) (hx : 0 ≤ x) (hp : 0 < p) (ha : 0 ≤ a) :
    truncate_to_2_decimals x ≤ x ∧ truncate_to_2_decimals (a / p) * p ≤ a :=
  ⟨truncate_le x hx, truncate_div_mul_le a p hp ha⟩

/-- Witness for C10 at x = 1/3, p = 0.22, a = 1. -/
theorem truncation_bias_witness :
    truncate_to_2_decimals (1/3 : ℚ) ≤ 1/3 ∧
      truncate_to_2_decimals ((1 : ℚ) / (22/100)) * (22/100) ≤ 1 :=
  truncation_bias (1/3) (22/100) 1 (by norm_num) (by norm_num) (by norm_num)

/-! ## Claim C2: missing book side sentinels -/

/-- C2 counterexample: the claim says a missing bid side is replaced by the minimum
possible price (0 on a [0,1] instrument) and a missing ask side by the maximum
possible price (1).  The code (src/new.py lines 331-332) does neither: the empty
bid side yields 100.0 and the empty ask side yields 0.0. -/
theorem quote_sentinel_counterexample : best_bid [] ≠ 0 ∧ best_ask [] ≠ 1 := by
  constructor <;> norm_num [best_bid, best_ask]

/-- C2 amended: a missing book side is handled by a sentinel, never an error, but
with the opposite orientation to the claim: no bids means the best bid is taken to
be 100.0 (a sentinel above every possible price) and no asks means the best ask is
taken to be 0.0 (the minimum possible price). -/
theorem quote_sentinel_values : best_bid [] = 100 ∧ best_ask [] = 0 :=
  ⟨rfl, rfl⟩

/-! ## Claim C6: entry rule A -/

/-- C6: for a still-active watched item with positive available balance, if the
best ask lies within [minBid, maxBid] and the spread is below the limit, the
monitor cancels resting orders, then buys at (the 2-decimal truncation of) the
best ask for (the truncation of) availableBalance / price units, and on a filled
buy promotes the item and submits a resting sell at the fixed SELL_TRESHOLD. -/
theorem rule_a_fires (currentBet portfolioBalance : ℚ) (bids asks : List ℚ)
    (hbet : currentBet < portfolioBalance)
    (hlo : MIN_BID / 100 ≤ best_ask asks)
    (hhi : best_ask asks ≤ MAX_BID / 100)
    (hsp : best_ask asks - best_bid bids < SPREAD_LIMIT / 100) :
    monitor_market_effects true true true true true currentBet portfolioBalance bids asks =
      [MarketEffect.cancelAll,
       MarketEffect.buy (truncate_to_2_decimals (best_ask asks))
         (truncate_to_2_decimals
           ((portfolioBalance - currentBet) / truncate_to_2_decimals (best_ask asks))),
       MarketEffect.promote,
       MarketEffect.sell SELL_TRESHOLD
         (truncate_to_2_decimals
           ((portfolioBalance - currentBet) / truncate_to_2_decimals (best_ask asks)))] := by
  simp [monitor_market_effects, not_le.mpr hbet, hlo, hhi, hsp]

/-- Witness for C6: the spec's end-to-end scenario 1.  Quote bid 0.20, ask 0.22,
budget 1, nothing committed: rule A fires and buys at 0.22 (here 4.54 units),
then promotes and rests a sell at 0.95. -/
theorem rule_a_fires_witness :
    monitor_market_effects true true true true true 0 1 [1/5] [11/50] =
      [MarketEffect.cancelAll, MarketEffect.buy (11/50) (227/50),
       MarketEffect.promote, MarketEffect.sell (19/20) (227/50)] := by
  rw [rule_a_fires 0 1 [1/5] [11/50] (by norm_num)
        (by show MIN_BID / 100 ≤ (11/50 : ℚ); norm_num [MIN_BID])
        (by show (11/50 : ℚ) ≤ MAX_BID / 100; norm_num [MAX_BID])
        (by show (11/50 : ℚ) - (1/5 : ℚ) < SPREAD_LIMIT / 100; norm_num [SPREAD_LIMIT])]
  show [MarketEffect.cancelAll,
        MarketEffect.buy (truncate_to_2_decimals (11/50))
          (truncate_to_2_decimals (((1:ℚ) - 0) / truncate_to_2_decimals (11/50))),
        MarketEffect.promote,
        MarketEffect.sell SELL_TRESHOLD
          (truncate_to_2_decimals (((1:ℚ) - 0) / truncate_to_2_decimals (11/50)))] = _
  norm_num [truncate_to_2_decimals, py_int, SELL_TRESHOLD]

/-! ## Claim C1: budget clamp -/

lemma buy_cost_le {eb bet : ℚ} (asks : List ℚ) (h3 : ¬ eb ≤ bet)
    (hlo : MIN_BID / 100 ≤ best_ask asks) :
    truncate_to_2_decimals (best_ask asks) *
      truncate_to_2_decimals ((eb - bet) / truncate_to_2_decimals (best_ask asks)) ≤
      eb - bet := by
  have havail : (0:ℚ) ≤ eb - bet := sub_nonneg.mpr (not_le.mp h3).le
  have h110 : MIN_BID / 100 = (1:ℚ)/10 := by norm_num [MIN_BID]
  rw [h110] at hlo
  have hppos := truncate_pos_of_tenth_le (best_ask asks) hlo
  rw [mul_comm]
  exact truncate_div_mul_le _ _ hppos havail

/-- C1: the effective budget of a scheduling cycle is
min((exposure + free) * PORTFOLIO_PERCENT / 100, free), hence never exceeds the
liquid cash; and every buy order the monitor places for an item has cost
price * size at most the effective budget minus the cost already committed to
that item. -/
theorem budget_clamp_order_cost (exposure free currentBet : ℚ)
    (sa iw bo c bf : Bool) (bids asks : List ℚ) (p s : ℚ)
    (hbuy : MarketEffect.buy p s ∈
      monitor_market_effects sa iw bo c bf currentBet
        (effective_budget exposure free) bids asks) :
    effective_budget exposure free ≤ free ∧
      p * s ≤ effective_budget exposure free - currentBet := by
  constructor
  · unfold effective_budget
    split_ifs with h
    · exact le_refl free
    · exact not_lt.mp h
  · unfold monitor_market_effects at hbuy
    split_ifs at hbuy with h1 h2 h3 h4 h5 h6 h7
    · exact absurd hbuy (List.not_mem_nil _)
    · exact absurd hbuy (List.not_mem_nil _)
    · simp at hbuy
    · exact absurd hbuy (List.not_mem_nil _)
    · simp at hbuy
      obtain ⟨hp, hs⟩ := hbuy
      subst hp; subst hs
      exact buy_cost_le asks h3 h5.1
    · simp at hbuy
      obtain ⟨hp, hs⟩ := hbuy
      subst hp; subst hs
      exact buy_cost_le asks h3 h5.1
    · simp at hbuy
    · exact absurd hbuy (List.not_mem_nil _)

/-- Witness for C1: exposure 0, free cash 100, nothing committed, quote
bid 0.20 / ask 0.22.  The effective budget is 1 and the placed order costs
0.22 * 4.54 = 0.9988 ≤ 1. -/
theorem budget_clamp_order_cost_witness :
    effective_budget 0 100 ≤ 100 ∧
      (11/50 : ℚ) * (227/50) ≤ effective_budget 0 100 - 0 :=
  budget_clamp_order_cost 0 100 0 true true true true true [1/5] [11/50]
    (11/50) (227/50)
    (by norm_num [monitor_market_effects, effective_budget, best_ask, best_bid,
          truncate_to_2_decimals, py_int, MIN_BID, MAX_BID, SPREAD_LIMIT,
          PORTFOLIO_PERCENT, SELL_TRESHOLD])

/-! ## The watchlist (src/new.py lines 74-87, 282-289)

An entry of `active_markets` is a dict with `condition_id`, `no_asset_id`,
`min_tick_size` and `start_iso_date`.  Only `condition_id` and the date matter
for ordering, so the item is condensed to those; `start_iso_date` is an ISO
timestamp compared via `datetime.fromisoformat`, modelled as the pair
(year, rest) ordered lexicographically, with `rest` encoding everything after
the year.  The `.replace("2024", "2050")` hack of `add_priority` touches the
year field exactly when it is 2024 (in a well-formed ISO timestamp "2024" can
only occur as the year).  The `promoted` field is a ghost annotation recording
that `add_priority` handled the item; the operations never read it. -/

structure GItem where
  condition_id : ℕ
  year : ℕ
  rest : ℕ
  promoted : Bool
deriving DecidableEq, Repr

def keyLt (a b : GItem) : Prop :=
  a.year < b.year ∨ (a.year = b.year ∧ a.rest < b.rest)

def keyLe (a b : GItem) : Prop :=
  a.year < b.year ∨ (a.year = b.year ∧ a.rest ≤ b.rest)

instance (a b : GItem) : Decidable (keyLt a b) := by unfold keyLt; infer_instance

instance (a b : GItem) : Decidable (keyLe a b) := by unfold keyLe; infer_instance

/-- The sorted-insert loop of `add_market`: insert before the first element with
a strictly later start date, else append. -/
def insertLoop (m : GItem) : List GItem → List GItem
  | [] => [m]
  | x :: xs => if keyLt m x then m :: x :: xs else x :: insertLoop m xs

/-- The `while len(active_markets) > WATCHLIST_LIMIT: active_markets.pop(0)`
loop: repeatedly drop the front element. -/
def evict (l : List GItem) : List GItem := l.drop (l.length - WATCHLIST_LIMIT)

def add_market (m : GItem) (l : List GItem) : List GItem := evict (insertLoop m l)

/-- The mutation `add_priority` applies to the found item:
`market["start_iso_date"] = market["start_iso_date"].replace("2024", "2050")`,
plus the ghost `promoted` mark. -/
def promoteItem (x : GItem) : GItem :=
  { x with year := if x.year = 2024 then 2050 else x.year, promoted := true }

/-- `add_priority`: pop the first item with the given id, rewrite its date,
append it at the back; no-op when the id is absent. -/
def add_priority (id : ℕ) : List GItem → List GItem
  | [] => []
  | x :: xs => if x.condition_id = id then xs ++ [promoteItem x] else x :: add_priority id xs

inductive WOp where
  | insert : GItem → WOp
  | promote : ℕ → WOp
deriving DecidableEq, Repr

def applyOp (l : List GItem) : WOp → List GItem
  | WOp.insert m => add_market m l
  | WOp.promote id => add_priority id l

def runOps (ops : List WOp) : List GItem := ops.foldl applyOp []

def insertedItems (ops : List WOp) : List GItem :=
  ops.filterMap fun op => match op with | WOp.insert m => some m | WOp.promote _ => none

/-- Amended snapshot ordering: un-promoted items precede promoted ones, and
un-promoted items are mutually ordered by activation key. -/
def rel (a b : GItem) : Prop := b.promoted = true ∨ (a.promoted = false ∧ keyLe a b)

/-- The claim's ordering, (priority desc, activationTime asc): promoted items
first, equal-priority items by activation key. -/
def claimRel (a b : GItem) : Prop :=
  (a.promoted = true ∧ b.promoted = false) ∨ (a.promoted = b.promoted ∧ keyLe a b)

def yearOK (x : GItem) : Prop := x.year = if x.promoted then 2050 else 2024

instance (a b : GItem) : Decidable (rel a b) := by unfold rel; infer_instance

instance (a b : GItem) : Decidable (claimRel a b) := by unfold claimRel; infer_instance

instance (x : GItem) : Decidable (yearOK x) := by unfold yearOK; infer_instance

def count_id (id : ℕ) (l : List GItem) : ℕ := l.countP (fun x => x.condition_id == id)

/-! ## Basic watchlist lemmas -/

lemma keyLe_trans {a b c : GItem} (h1 : keyLe a b) (h2 : keyLe b c) : keyLe a c := by
  unfold keyLe at h1 h2 ⊢
  omega

lemma keyLe_of_keyLt {a b : GItem} (h : keyLt a b) : keyLe a b := by
  unfold keyLt at h
  unfold keyLe
  omega

lemma keyLe_of_not_keyLt {a b : GItem} (h : ¬ keyLt a b) : keyLe b a := by
  unfold keyLt at h
  unfold keyLe
  omega

lemma mem_insertLoop {m x : GItem} : ∀ {l : List GItem}, x ∈ insertLoop m l → x = m ∨ x ∈ l := by
  intro l
  induction l with
  | nil =>
    intro h
    simp only [insertLoop, List.mem_singleton] at h
    exact Or.inl h
  | cons a t ih =>
    intro h
    simp only [insertLoop] at h
    split_ifs at h with hc
    · rcases List.mem_cons.mp h with h' | h'
      · exact Or.inl h'
      · exact Or.inr h'
    · rcases List.mem_cons.mp h with h' | h'
      · exact Or.inr (h' ▸ List.mem_cons_self a t)
      · rcases ih h' with h'' | h''
        · exact Or.inl h''
        · exact Or.inr (List.mem_cons_of_mem a h'')

lemma insertLoop_length (m : GItem) : ∀ l : List GItem, (insertLoop m l).length = l.length + 1 := by
  intro l
  induction l with
  | nil => rfl
  | cons a t ih =>
    simp only [insertLoop]
    split_ifs with hc
    · simp
    · simp [ih]

lemma insertLoop_perm (m : GItem) : ∀ l : List GItem, List.Perm (insertLoop m l) (m :: l) := by
  intro l
  induction l with
  | nil => exact List.Perm.refl _
  | cons a t ih =>
    simp only [insertLoop]
    split_ifs with hc
    · exact List.Perm.refl _
    · exact (ih.cons a).trans (List.Perm.swap m a t)

lemma insertLoop_front {m : GItem} : ∀ {l : List GItem}, (∀ x ∈ l, keyLt m x) →
    insertLoop m l = m :: l := by
  intro l h
  cases l with
  | nil => rfl
  | cons a t =>
    simp only [insertLoop]
    rw [if_pos (h a (List.mem_cons_self a t))]

lemma add_priority_length (id : ℕ) : ∀ l : List GItem, (add_priority id l).length = l.length := by
  intro l
  induction l with
  | nil => rfl
  | cons a t ih =>
    simp only [add_priority]
    split_ifs with hc
    · simp
    · simp [ih]

lemma mem_add_priority {id : ℕ} {y : GItem} :
    ∀ {l : List GItem}, y ∈ add_priority id l → y ∈ l ∨ ∃ x ∈ l, y = promoteItem x := by
  intro l
  induction l with
  | nil =>
    intro h
    exact absurd h (List.not_mem_nil y)
  | cons a t ih =>
    intro h
    simp only [add_priority] at h
    split_ifs at h with hc
    · rcases List.mem_append.mp h with h' | h'
      · exact Or.inl (List.mem_cons_of_mem a h')
      · right
        exact ⟨a, List.mem_cons_self a t, (List.mem_singleton.mp h')⟩
    · rcases List.mem_cons.mp h with h' | h'
      · exact Or.inl (h' ▸ List.mem_cons_self a t)
      · rcases ih h' with h'' | ⟨x, hx, hx'⟩
        · exact Or.inl (List.mem_cons_of_mem a h'')
        · exact Or.inr ⟨x, List.mem_cons_of_mem a hx, hx'⟩

lemma promoteItem_promoted (x : GItem) : (promoteItem x).promoted = true := rfl

lemma yearOK_promoteItem {x : GItem} (h : yearOK x) : yearOK (promoteItem x) := by
  cases hxp : x.promoted with
  | false =>
    simp only [yearOK, hxp, if_false] at h
    simp [yearOK, promoteItem, h]
  | true =>
    simp only [yearOK, hxp, if_true] at h
    simp [yearOK, promoteItem, h]

/-! ## Watchlist invariant preservation -/

lemma insertLoop_pairwise (m : GItem) (hm : m.year = 2024) (hmp : m.promoted = false) :
    ∀ l : List GItem, l.Pairwise rel → (∀ x ∈ l, yearOK x) →
      (insertLoop m l).Pairwise rel := by
  intro l
  induction l with
  | nil =>
    intro _ _
    simp [insertLoop]
  | cons a t ih =>
    intro hp hy
    obtain ⟨hra, hpt⟩ := List.pairwise_cons.mp hp
    have hya := hy a (List.mem_cons_self a t)
    have hyt : ∀ x ∈ t, yearOK x := fun x hx => hy x (List.mem_cons_of_mem a hx)
    simp only [insertLoop]
    split_ifs with hc
    · rw [List.pairwise_cons]
      refine ⟨?_, hp⟩
      intro y hy'
      rcases List.mem_cons.mp hy' with rfl | hyt'
      · by_cases hap : y.promoted = true
        · exact Or.inl hap
        · exact Or.inr ⟨hmp, keyLe_of_keyLt hc⟩
      · by_cases hyp : y.promoted = true
        · exact Or.inl hyp
        · right
          refine ⟨hmp, ?_⟩
          rcases hra y hyt' with h' | ⟨_, hle⟩
          · exact absurd h' hyp
          · exact keyLe_trans (keyLe_of_keyLt hc) hle
    · have hap : a.promoted = false := by
        by_contra hap'
        have hap2 : a.promoted = true := by
          cases h : a.promoted
          · exact absurd h hap'
          · rfl
        have hay : a.year = 2050 := by
          simpa [yearOK, hap2] using hya
        exact hc (Or.inl (by rw [hm, hay]; norm_num))
      rw [List.pairwise_cons]
      constructor
      · intro y hy'
        rcases mem_insertLoop hy' with rfl | hyt'
        · exact Or.inr ⟨hap, keyLe_of_not_keyLt hc⟩
        · exact hra y hyt'
      · exact ih hpt hyt

lemma insertLoop_years (m : GItem) (hmy : yearOK m) {l : List GItem}
    (hl : ∀ x ∈ l, yearOK x) : ∀ x ∈ insertLoop m l, yearOK x := by
  intro x hx
  rcases mem_insertLoop hx with rfl | hx'
  · exact hmy
  · exact hl x hx'

lemma add_priority_pairwise (id : ℕ) :
    ∀ l : List GItem, l.Pairwise rel → (add_priority id l).Pairwise rel := by
  intro l
  induction l with
  | nil =>
    intro _
    simp [add_priority]
  | cons a t ih =>
    intro hp
    obtain ⟨hra, hpt⟩ := List.pairwise_cons.mp hp
    simp only [add_priority]
    split_ifs with hc
    · rw [List.pairwise_append]
      refine ⟨hpt, by simp, ?_⟩
      intro x _ y hy'
      rw [List.mem_singleton.mp hy']
      exact Or.inl (promoteItem_promoted a)
    · rw [List.pairwise_cons]
      constructor
      · intro y hy'
        rcases mem_add_priority hy' with h' | ⟨x, _, rfl⟩
        · exact hra y h'
        · exact Or.inl (promoteItem_promoted x)
      · exact ih hpt

lemma add_priority_years (id : ℕ) {l : List GItem} (hl : ∀ x ∈ l, yearOK x) :
    ∀ x ∈ add_priority id l, yearOK x := by
  intro x hx
  rcases mem_add_priority hx with h' | ⟨z, hz, rfl⟩
  · exact hl x h'
  · exact yearOK_promoteItem (hl z hz)

lemma evict_pairwise {l : List GItem} (h : l.Pairwise rel) : (evict l).Pairwise rel :=
  h.sublist (List.drop_sublist _ _)

lemma evict_years {l : List GItem} (hl : ∀ x ∈ l, yearOK x) : ∀ x ∈ evict l, yearOK x :=
  fun x hx => hl x (List.mem_of_mem_drop hx)

lemma foldl_winv : ∀ (ops : List WOp) (l : List GItem), l.Pairwise rel →
    (∀ x ∈ l, yearOK x) →
    (∀ m, WOp.insert m ∈ ops → m.year = 2024 ∧ m.promoted = false) →
    (ops.foldl applyOp l).Pairwise rel ∧ ∀ x ∈ ops.foldl applyOp l, yearOK x := by
  intro ops
  induction ops with
  | nil =>
    intro l hp hy _
    exact ⟨hp, hy⟩
  | cons op t ih =>
    intro l hp hy hops
    simp only [List.foldl_cons]
    apply ih
    · cases op with
      | insert m =>
        obtain ⟨hm, hmp⟩ := hops m (List.mem_cons_self _ _)
        exact evict_pairwise (insertLoop_pairwise m hm hmp l hp hy)
      | promote id => exact add_priority_pairwise id l hp
    · cases op with
      | insert m =>
        obtain ⟨hm, hmp⟩ := hops m (List.mem_cons_self _ _)
        exact evict_years (insertLoop_years m (by simp [yearOK, hm, hmp]) hy)
      | promote id => exact add_priority_years id hy
    · exact fun m hm => hops m (List.mem_cons_of_mem op hm)

lemma mem_insertedItems {m : GItem} {ops : List WOp} (h : WOp.insert m ∈ ops) :
    m ∈ insertedItems ops := by
  unfold insertedItems
  rw [List.mem_filterMap]
  exact ⟨WOp.insert m, h, rfl⟩

/-! ## Claim C4: snapshot ordering under insert and promote -/

/-- C4 counterexample: from an empty watchlist, insert item 1 (activation
2024/rest 1), insert item 2 (2024/rest 2), then promote item 1.  The claim's
ordering (priority desc, activationTime asc) would put the promoted item 1
first; the code leaves the snapshot [item 2, promoted item 1], which violates
that ordering. -/
theorem watchlist_claim_counterexample :
    ¬ (runOps [WOp.insert ⟨1, 2024, 1, false⟩, WOp.insert ⟨2, 2024, 2, false⟩,
               WOp.promote 1]).Pairwise claimRel := by
  decide

/-- C4 amended: `add_priority` moves a promoted item to the BACK of the list
(rewriting a 2024 activation year to the sentinel 2050), so for every sequence
of `add_market`/`add_priority` calls from the empty watchlist whose inserted
items all have activation year 2024 and are un-promoted, the snapshot is
non-decreasing by (priority ASCENDING, activation key ascending among
un-promoted items): a promoted item is re-evaluated after, not ahead of, the
not-yet-active items. -/
theorem watchlist_sorted_invariant (ops : List WOp)
    (hops : ∀ m ∈ insertedItems ops, m.year = 2024 ∧ m.promoted = false) :
    (runOps ops).Pairwise rel := by
  have h' : ∀ m, WOp.insert m ∈ ops → m.year = 2024 ∧ m.promoted = false :=
    fun m hm => hops m (mem_insertedItems hm)
  exact (foldl_winv ops [] List.Pairwise.nil (by simp) h').1

/-- Witness for C4 at a concrete operation sequence: two inserts and a
promotion. -/
theorem watchlist_sorted_invariant_witness :
    (runOps [WOp.insert ⟨1, 2024, 5, false⟩, WOp.insert ⟨2, 2024, 3, false⟩,
             WOp.promote 2]).Pairwise rel :=
  watchlist_sorted_invariant _ (by decide)

/-! ## Claim C5: duplicate ids -/

/-- C5 counterexample: `add_market` performs no id check.  Inserting an item
with condition_id 7 twice (different activation keys) yields a watchlist with
two entries for id 7, refuting "at most one entry per id". -/
theorem duplicate_id_counterexample :
    count_id 7 (add_market ⟨7, 2024, 9, false⟩ (add_market ⟨7, 2024, 5, false⟩ [])) = 2 := by
  decide

/-- C5 amended: `add_market` inserts unconditionally — inserting an item whose
id is already present adds one more entry with that id (whenever the list is
under capacity, so that eviction does not interfere); uniqueness of ids is
maintained only by the callers, which test membership before calling
`add_market`. -/
theorem add_market_duplicates (m : GItem) (l : List GItem)
    (h : l.length < WATCHLIST_LIMIT) :
    count_id m.condition_id (add_market m l) = count_id m.condition_id l + 1 := by
  have hlen : (insertLoop m l).length = l.length + 1 := insertLoop_length m l
  have hev : add_market m l = insertLoop m l := by
    unfold add_market evict
    rw [hlen]
    have h0 : l.length + 1 - WATCHLIST_LIMIT = 0 := by
      unfold WATCHLIST_LIMIT at h ⊢
      omega
    rw [h0, List.drop_zero]
  rw [hev]
  unfold count_id
  rw [(insertLoop_perm m l).countP_eq, List.countP_cons]
  simp

/-- Witness for C5: inserting id 3 over a singleton watchlist already holding
id 3 yields two entries. -/
theorem add_market_duplicates_witness :
    count_id 3 (add_market ⟨3, 2024, 1, false⟩ [⟨3, 2024, 0, false⟩]) =
      count_id 3 [⟨3, 2024, 0, false⟩] + 1 :=
  add_market_duplicates ⟨3, 2024, 1, false⟩ [⟨3, 2024, 0, false⟩] (by decide)

/-! ## Claim C9: capacity and eviction -/

/-- A full watchlist of 200 items with ids/keys 1..200. -/
def l200 : List GItem := (List.range 200).map fun k => ⟨k + 1, 2024, k + 1, false⟩

/-- C9 counterexample: inserting a 201st item whose activation key is the
earliest of all into the full `l200` evicts THE NEW ITEM ITSELF: the original
earliest entry (id 1) is still present and the new item (id 500) is gone,
refuting "the original earliest item is evicted". -/
theorem capacity_claim_counterexample :
    GItem.mk 1 2024 1 false ∈ add_market ⟨500, 2024, 0, false⟩ l200 ∧
      GItem.mk 500 2024 0 false ∉ add_market ⟨500, 2024, 0, false⟩ l200 := by
  decide

/-- C9 amended: after any mutation the size stays at most 200 (`add_market`
evicts down to the limit, `add_priority` preserves length); eviction removes
from the FRONT of the date-ordered list, so inserting an item earlier than
every entry of a full 200-item watchlist evicts that new item itself and
leaves the list unchanged; and under the sorted invariant (`rel`-pairwise,
promoted items at the back) eviction never removes a promoted entry while an
un-promoted one is kept: if a dropped element is promoted, every kept element
is promoted too. -/
theorem capacity_and_eviction (m : GItem) (l : List GItem) (id : ℕ)
    (hlen : l.length ≤ WATCHLIST_LIMIT) :
    (add_market m l).length ≤ WATCHLIST_LIMIT ∧
      (add_priority id l).length = l.length ∧
      (l.length = WATCHLIST_LIMIT → (∀ x ∈ l, keyLt m x) → add_market m l = l) ∧
      (l.Pairwise rel → ∀ n : ℕ, ∀ x ∈ l.take n, ∀ y ∈ l.drop n,
        x.promoted = true → y.promoted = true) := by
  refine ⟨?_, add_priority_length id l, ?_, ?_⟩
  · unfold add_market evict
    rw [List.length_drop, insertLoop_length]
    omega
  · intro h200 hall
    unfold add_market evict
    rw [insertLoop_front hall]
    have : (m :: l).length - WATCHLIST_LIMIT = 1 := by
      simp only [List.length_cons, h200]
      omega
    rw [this]
    exact List.drop_one (m :: l) ▸ rfl
  · intro hp n x hx y hy hxp
    have hsplit : l = l.take n ++ l.drop n := (List.take_append_drop n l).symm
    rw [hsplit] at hp
    have hrel := (List.pairwise_append.mp hp).2.2 x hx y hy
    rcases hrel with h' | ⟨h', _⟩
    · exact h'
    · rw [hxp] at h'
      exact absurd h' (by simp)

/-- Witness for C9: the full watchlist `l200` with the new earliest item
(id 500): the size bound holds and the insertion leaves `l200` unchanged. -/
theorem capacity_and_eviction_witness :
    (add_market ⟨500, 2024, 0, false⟩ l200).length ≤ WATCHLIST_LIMIT ∧
      add_market ⟨500, 2024, 0, false⟩ l200 = l200 :=
  ⟨(capacity_and_eviction ⟨500, 2024, 0, false⟩ l200 1 (by decide)).1,
   (capacity_and_eviction ⟨500, 2024, 0, false⟩ l200 1 (by decide)).2.2.1
     (by decide) (by decide)⟩

/-! ## The log line of monitor_new_markets (src/new.py lines 391-392)

`logger.info(f"New market found: {market["condition_id"] if i > 0 else key[::-1]}")`
where `key = os.getenv("PK")` is the private signing key.  `key[::-1]` is the
reversed string. -/

def new_market_log_line (pk cid : String) (i : ℕ) : String :=
  "New market found: " ++ (if 0 < i then cid else String.mk pk.data.reverse)

/-! ## Claim C3: log output must not depend on the private key -/

/-- C3: the claim (noninterference of the log output from the PK secret) is
right and the code is wrong: for the first qualifying market of a page
(index 0) the code interpolates the REVERSED PRIVATE KEY instead of the
market's condition_id, so two runs differing only in PK emit different
"New market found" lines on identical market data. -/
theorem new_market_log_depends_on_pk :
    new_market_log_line "abc" "0xdeadbeef" 0 ≠ new_market_log_line "xyz" "0xdeadbeef" 0 := by
  decide

/-! ## The retry envelope (src/new.py lines 89-103, src/run.py lines 63-77)

Both variants of `get_polymarket_markets` run `while True: try ... except ...`
around the HTTP fetch.  The attempt outcomes are an oracle
`responses : ℕ → Option ℕ` (`none` = raised, `some d` = returned data `d`);
`retry_fetch responses fuel` is the loop observed for `fuel` iterations,
`none` meaning it is still running. -/

def retry_fetch (responses : ℕ → Option ℕ) : ℕ → Option ℕ
  | 0 => none
  | fuel + 1 =>
    match responses 0 with
    | some d => some d
    | none => retry_fetch (fun k => responses (k + 1)) fuel

def never_returns (responses : ℕ → Option ℕ) : Prop :=
  ∀ fuel : ℕ, retry_fetch responses fuel = none

/-! ## Claim C7: bounded retry -/

/-- C7 counterexample: on the response sequence where every attempt fails, the
retry loop never returns — neither data nor a surfaced failure — after any
finite number of attempts, refuting "retried at most a bounded number of
times ... after which the failure is surfaced to the caller". -/
theorem retry_never_surfaces_failure : never_returns (fun _ => none) := by
  intro fuel
  induction fuel with
  | zero => rfl
  | succ n ih => exact ih

/-- C7 amended: the retry loop is UNBOUNDED: it returns the first successful
response (after k failed attempts the k-th success is returned on attempt
k + 1) and, when every attempt fails, retries forever without ever surfacing
a failure (with a 1-3 s sleep between attempts in new.py, none in run.py). -/
theorem retry_returns_first_success (responses : ℕ → Option ℕ) (k d : ℕ)
    (hk : responses k = some d) (hmin : ∀ j : ℕ, j < k → responses j = none) :
    retry_fetch responses (k + 1) = some d := by
  induction k generalizing responses with
  | zero =>
    simp only [retry_fetch, hk]
  | succ n ih =>
    have h0 : responses 0 = none := hmin 0 (Nat.succ_pos n)
    simp only [retry_fetch, h0]
    exact ih (fun k => responses (k + 1)) hk (fun j hj => hmin (j + 1) (by omega))

/-- Witness for C7 and the spec's scenario 5: three failures, success with
payload 42 on the fourth attempt — the loop returns 42 after four attempts. -/
theorem retry_returns_first_success_witness :
    retry_fetch (fun n => if n = 3 then some 42 else none) 4 = some 42 :=
  retry_returns_first_success (fun n => if n = 3 then some 42 else none) 3 42
    (by decide)
    (by
      intro j hj
      have hne : j ≠ 3 := by omega
      simp [hne])

/-! ## Trade aggregation (src/new.py lines 199-228)

`get_bet_on_market` returns None when the fetch raised or the trade list is
empty, and otherwise the pair (total_bet, shares_bought) accumulated over the
trades with status "CONFIRMED".  Addresses are modelled as ℕ. -/

structure MakerOrder where
  maker_address : ℕ
  mo_price : ℚ
  matched_amount : ℚ
deriving DecidableEq, Repr

structure Trade where
  status : String
  maker_address : ℕ
  price : ℚ
  maker_orders : List MakerOrder
deriving DecidableEq, Repr

def maker_orders_size (mos : List MakerOrder) : ℚ :=
  (mos.map MakerOrder.matched_amount).sum

def trade_contrib (funder : ℕ) (t : Trade) : ℚ × ℚ :=
  if t.status ≠ "CONFIRMED" then (0, 0)
  else if t.maker_address = funder then
    (t.price * maker_orders_size t.maker_orders, maker_orders_size t.maker_orders)
  else
    (((t.maker_orders.filter (fun mo => mo.maker_address == funder)).map
        (fun mo => mo.mo_price * mo.matched_amount)).sum,
     maker_orders_size (t.maker_orders.filter (fun mo => mo.maker_address == funder)))

def get_bet_on_market (funder : ℕ) (trades : List Trade) : Option (ℚ × ℚ) :=
  if trades.length = 0 then none
  else some (((trades.map (trade_contrib funder)).map Prod.fst).sum,
             ((trades.map (trade_contrib funder)).map Prod.snd).sum)

/-! ## Claim C8: division by zero in check_resolved -/

/-- C8: the claim is right and the code is wrong.  In `check_resolved`
(src/new.py lines 421-424), `avg_price = total_bet / shares_bought` is guarded
only by `result != None`, but `get_bet_on_market` returns (0.0, 0.0) — not
None — whenever the trade list is non-empty yet contains no CONFIRMED trade:
here a single trade with status "MINED" passes the guard with
shares_bought = 0, so the Python code evaluates 0.0 / 0.0 and raises
ZeroDivisionError, killing the worker (and, since free_window_size is never
incremented, stalling the scheduler's busy-wait barrier). -/
theorem reconciliation_zero_size :
    get_bet_on_market 1 [⟨"MINED", 1, 1/2, [⟨2, 1/2, 10⟩]⟩] = some (0, 0) := by
  have hs : ("MINED" : String) ≠ "CONFIRMED" := by decide
  norm_num [get_bet_on_market, trade_contrib, hs]

end PolymarketManager
